import Mathlib

/-!
Shallow embedding of `src/gcs_fs.go` (package `simplefs_gcs`), a filesystem
abstraction over a flat object store (Google Cloud Storage).

Modelling conventions:

* Go strings are modelled as Lean `String`s; a `Char` stands for one byte of
  the Go string.  This is exact for ASCII data, and order-faithful in general
  because UTF-8 byte order agrees with codepoint order.
* The object store is modelled in two facets, matching the two backend calls
  the source makes: the key listing returned by an `Objects` prefix query is a
  `List String` of keys, and the per-key read/write interface
  (`NewReader` / `NewWriter`) is a partial map `Store : String → Option String`
  from keys to contents, together with an oracle for reader-open outcomes so
  that arbitrary backend failures can be expressed.
* A GCS writer buffers the bytes written to it and commits the object
  atomically when closed (overwriting any previous object); `commit` models
  the close.
* Mid-iteration listing errors and the client-construction error field
  (`fileSystem.err`) are not modelled; no claim concerns them.
-/

/-- Decidable equality of `Except` results, used to evaluate the model on
concrete inputs. -/
instance {α β : Type} [DecidableEq α] [DecidableEq β] : DecidableEq (Except α β) :=
  fun a b =>
    match a, b with
    | Except.ok x, Except.ok y =>
        if h : x = y then Decidable.isTrue (by rw [h])
        else Decidable.isFalse (by intro hc; cases hc; exact h rfl)
    | Except.error x, Except.error y =>
        if h : x = y then Decidable.isTrue (by rw [h])
        else Decidable.isFalse (by intro hc; cases hc; exact h rfl)
    | Except.ok _, Except.error _ => Decidable.isFalse (by intro hc; cases hc)
    | Except.error _, Except.ok _ => Decidable.isFalse (by intro hc; cases hc)

namespace SimplefsGcs

/-! ### Go `path.Clean` and `path.Join` (Go standard library, transcribed)

`src/gcs_fs.go` resolves every backend key with `path.Join(fs.prefix, name)`.
`cleanLoop` is a functional transcription of the loop in Go's `path.Clean`:
the output buffer is kept in reverse order, `dd` is Go's `dotdot` marker, and
the boolean state distinguishes whether we are currently copying a path
segment (Go's inner copy loop).  Go's `..` case consumes two bytes; here it
performs its action on the first `.` and lets the following single-`.` rule
consume the second one, which is behaviourally identical and keeps the
recursion structural. -/

/-- Inner loop of the Go `..` backtracking step: keep dropping buffer bytes
while the buffer is longer than `dotdot` and the byte just dropped is not a
separator (`out.index(out.w) != '/'` in Go). -/
def popSegmentGo (dotdot : Nat) : Char → List Char → List Char
  | _, [] => []
  | last, c :: rest =>
      if dotdot < (c :: rest).length ∧ last ≠ '/' then popSegmentGo dotdot c rest
      else c :: rest

/-- Go `path.Clean` backtracking for `..`: unconditionally drop the last
buffer byte, then continue with `popSegmentGo`. -/
def popSegment (dotdot : Nat) : List Char → List Char
  | [] => []
  | c :: rest => popSegmentGo dotdot c rest

/-- Buffer update for a `..` that cannot backtrack in a relative path:
Go appends `/` (if the buffer is nonempty) and then `..`.  The buffer is in
reverse order. -/
def dotdotOut (out : List Char) : List Char :=
  '.' :: '.' :: (if out = [] then [] else '/' :: out)

/-- The main loop of Go `path.Clean`.  Arguments: the remaining input, a flag
for "currently inside a segment" (Go's inner copy loop), the output buffer in
reverse order, and the `dotdot` marker. -/
def cleanLoop (rooted : Bool) : List Char → Bool → List Char → Nat → List Char
  | [], _, out, _ => out
  | c :: r, true, out, dd =>
      if c = '/' then cleanLoop rooted r false out dd
      else cleanLoop rooted r true (c :: out) dd
  | c :: r, false, out, dd =>
      if c = '/' then cleanLoop rooted r false out dd
      else if c = '.' ∧ (r = [] ∨ r.head? = some '/') then
        cleanLoop rooted r false out dd
      else if c = '.' ∧ r.head? = some '.' ∧ (r.tail = [] ∨ r.tail.head? = some '/') then
        if dd < out.length then cleanLoop rooted r false (popSegment dd out) dd
        else if rooted then cleanLoop rooted r false out dd
        else cleanLoop rooted r false (dotdotOut out) (dotdotOut out).length
      else
        cleanLoop rooted r true
          (c :: (if (rooted = true ∧ out.length ≠ 1) ∨ (rooted = false ∧ out.length ≠ 0)
                 then '/' :: out else out)) dd

/-- Postlude of Go `path.Clean`: an empty buffer yields `"."`. -/
def finishClean (out : List Char) : String :=
  if out = [] then "." else String.mk out.reverse

/-- Go `path.Clean`. -/
def goClean (s : String) : String :=
  match s.data with
  | [] => "."
  | c :: rest =>
      if c = '/' then finishClean (cleanLoop true rest false ['/'] 1)
      else finishClean (cleanLoop false (c :: rest) false [] 0)

/-- Go `path.Join` on two elements, as called by the source
(`path.Join(fs.prefix, name)`): empty elements contribute nothing, the result
of joining with `/` is passed through `path.Clean`, and the join of two empty
strings is the empty string (no `Clean`). -/
def goJoin (a b : String) : String :=
  if a = "" ∧ b = "" then ""
  else if a = "" then goClean b
  else goClean (a ++ "/" ++ b)

/-! ### Errors and the backend read interface

`simplefs.ErrNotFound` is the canonical filesystem error; any other failure
coming out of the storage collaborator is an opaque value of an abstract type
`ε`.  The backend's `storage.ErrObjectNotExist` signal is the `notExist`
outcome of a reader open; it is a distinct Go value from `simplefs.ErrNotFound`,
which is why the two live in different constructors/types here. -/

/-- Error values returned by the filesystem operations: the canonical
`simplefs.ErrNotFound`, or a backend error surfaced as-is. -/
inductive FsErr (ε : Type) : Type
  | notFound
  | backend (e : ε)
deriving DecidableEq

/-- Outcome of `fs.bucket.Object(key).NewReader(ctx)`: a reader over the
object's full content, the `storage.ErrObjectNotExist` signal, or some other
backend failure. -/
inductive ReaderOutcome (ε : Type) : Type
  | ok (content : String)
  | notExist
  | err (e : ε)
deriving DecidableEq

/-- The `file` struct of the source: it wraps the reader returned by
`NewReader`.  `r = none` models a Go `nil` reader field (the struct is still a
non-nil `simplefs.File`); `r = some c` models a reader positioned over content
`c`. -/
structure File : Type where
  r : Option String
deriving DecidableEq

/-- `file.Read` delegates to the wrapped reader; reading an open file to the
end yields the object content it was opened on. -/
def File.readToEnd (f : File) : Option String := f.r

/-- The object contents held by the bucket: key to content. -/
def Store : Type := String → Option String

/-- Reader opens served directly from the bucket contents: a present key
yields its content, an absent key yields `storage.ErrObjectNotExist`. -/
def storeReader {ε : Type} (store : Store) : String → ReaderOutcome ε :=
  fun k => match store k with
    | some c => ReaderOutcome.ok c
    | none => ReaderOutcome.notExist

/-- A GCS object writer: bound to one key, buffering everything written to
it.  Nothing is visible in the bucket until the writer is closed. -/
structure Writer : Type where
  key : String
  buf : String
deriving DecidableEq

/-- `io.WriteCloser.Write`: append bytes to the writer's buffer. -/
def Writer.write (w : Writer) (d : String) : Writer :=
  { w with buf := w.buf ++ d }

/-- Closing a writer commits its buffer as the object at its key,
overwriting any previous content. -/
def commit (store : Store) (w : Writer) : Store :=
  fun k => if k = w.key then some w.buf else store k

/-- `fileSystem.Create`: a fresh writer at the resolved key
(`path.Join(fs.prefix, name)`), no existence check.  (The
client-construction error field `fs.err` is not modelled; it is `nil` for a
successfully constructed client.) -/
def Create (root name : String) : Writer :=
  { key := goJoin root name, buf := "" }

/-- `fileSystem.Open`: open a reader at the resolved key.  Returns the Go
pair `(simplefs.File, error)`: `storage.ErrObjectNotExist` is mapped to
`(nil, simplefs.ErrNotFound)`; otherwise the source returns `&file{r: r}`
together with the unchanged error, so on a non-not-exist failure the file is
non-nil but wraps a `nil` reader. -/
def Open {ε : Type} (nr : String → ReaderOutcome ε) (root name : String) :
    Option File × Option (FsErr ε) :=
  match nr (goJoin root name) with
  | ReaderOutcome.ok c => (some { r := some c }, none)
  | ReaderOutcome.notExist => (none, some FsErr.notFound)
  | ReaderOutcome.err e => (some { r := none }, some (FsErr.backend e))

/-- `io.Copy(w, r)` inside `Append`: copy the opened file's content into the
fresh writer.  When `Open` returned no file (`r == nil` in Go) nothing is
copied.  The `some { r := none }` case is unreachable from `Append` (its
error guard returns first; Go would panic copying from a nil reader). -/
def appendCopy (w : Writer) : Option File → Writer
  | some f =>
      match f.r with
      | some c => w.write c
      | none => w
  | none => w

/-- `fileSystem.Append`: open the existing object for reading; any open error
other than `simplefs.ErrNotFound` is returned as-is; then create a fresh
writer at the same key and copy the existing content into it. -/
def Append {ε : Type} (nr : String → ReaderOutcome ε) (root name : String) :
    Except (FsErr ε) Writer :=
  match Open nr root name with
  | (r, some FsErr.notFound) => Except.ok (appendCopy (Create root name) r)
  | (_, some (FsErr.backend e)) => Except.error (FsErr.backend e)
  | (r, none) => Except.ok (appendCopy (Create root name) r)

/-! ### Directory synthesizer (`fileSystem.ReadDir`) -/

/-- The `dirEntry` struct of the source: only a name. -/
structure DirEntry : Type where
  name : String
deriving DecidableEq

/-- `dirEntry.IsDir` always reports `false` in the source. -/
def DirEntry.isDir (_ : DirEntry) : Bool := false

/-- The backend's prefix query: does `p` occur as a byte-prefix of key `s`?
(`storage.Query{Prefix: p}` matches keys by plain string prefix.) -/
def goHasPfx (p s : String) : Bool :=
  p.data.isPrefixOf s.data

/-- The byte slice `attrs.Name[n+1:]` of the source: drop the first `n`
bytes of `s`. -/
def goDrop (n : Nat) (s : String) : String :=
  String.mk (s.data.drop n)

/-- `strings.Count(name, "/") > 0`: does the name contain a separator? -/
def hasSlash (s : String) : Bool :=
  s.data.contains '/'

/-- The iteration loop of `ReadDir` over the keys returned by the prefix
query, carrying the accumulated entry names.  `none` models the early
`return nil, simplefs.ErrNotFound` taken when a key equals the queried
prefix exactly; `n` is `len(prefix)`. -/
def readDirLoop (pfx : String) (n : Nat) : List String → List String → Option (List String)
  | [], names => some names
  | k :: rest, names =>
      if k = pfx then none
      else if hasSlash (goDrop (n + 1) k) then readDirLoop pfx n rest names
      else readDirLoop pfx n rest (names ++ [goDrop (n + 1) k])

/-- Go `sort.StringSlice` comparison, byte-lexicographic `≤`. -/
def lexLe : List Char → List Char → Bool
  | [], _ => true
  | _ :: _, [] => false
  | a :: as, b :: bs =>
      if a.toNat < b.toNat then true
      else if b.toNat < a.toNat then false
      else lexLe as bs

/-- Byte-lexicographic `≤` on strings (the order `sort.Sort(names)` uses). -/
def strLe (a b : String) : Bool :=
  lexLe a.data b.data

/-- Insertion step of the sort. -/
def insertStr (x : String) : List String → List String
  | [] => [x]
  | y :: ys => if strLe x y then x :: y :: ys else y :: insertStr x ys

/-- `sort.Sort(names)` on a string slice.  (Go's sort is an in-place
comparison sort; since byte-lexicographic order is total and antisymmetric,
the sorted list is uniquely determined by the input multiset, so insertion
sort computes the same list.) -/
def sortStrings : List String → List String
  | [] => []
  | x :: xs => insertStr x (sortStrings xs)

/-- `fileSystem.ReadDir`: resolve the directory to a prefix, list all keys
with that prefix, fail with `simplefs.ErrNotFound` on an exact-match key or
when no key matched, otherwise sort the one-level relative names and wrap
them as entries.  The error type is `FsErr Empty`: mid-iteration backend
errors are not modelled, so `ErrNotFound` is the only possible failure. -/
def ReadDir (store : List String) (root dir : String) :
    Except (FsErr Empty) (List DirEntry) :=
  match readDirLoop (goJoin root dir) (goJoin root dir).length
      (store.filter (fun k => goHasPfx (goJoin root dir) k)) [] with
  | none => Except.error FsErr.notFound
  | some names =>
      if (store.filter (fun k => goHasPfx (goJoin root dir) k)).isEmpty then
        Except.error FsErr.notFound
      else Except.ok ((sortStrings names).map DirEntry.mk)

/-- The relative-name computation as the specification words it ("strip the
prefix `P` and the following path separator"): remove the prefix, then remove
the following separator if one is there.  Used only to compare the
specification's description against the source's byte-slice computation. -/
def specRelName (p k : String) : String :=
  match (goDrop p.length k).data with
  | '/' :: rest => String.mk rest
  | other => String.mk other

/-! ### Helper lemmas: strings -/

theorem str_data_append (a b : String) : (a ++ b).data = a.data ++ b.data := by
  cases a
  cases b
  rfl

theorem str_mk_data (s : String) : String.mk s.data = s := by
  cases s
  rfl

theorem str_mk_inj {a b : List Char} (h : String.mk a = String.mk b) : a = b := by
  injection h

theorem str_ne_empty_iff {s : String} : s ≠ "" ↔ s.data ≠ [] := by
  constructor
  · intro h hd
    exact h (by cases s; cases hd; rfl)
  · intro h hs
    exact h (by cases hs; rfl)

theorem str_eq_of_data_eq {a b : String} (h : a.data = b.data) : a = b := by
  cases a
  cases b
  cases h
  rfl

theorem str_append_empty (s : String) : s ++ "" = s :=
  str_eq_of_data_eq (by rw [str_data_append]; exact List.append_nil s.data)

/-! ### Helper lemmas: `path.Clean` ignores a trailing separator

Needed for `path.Join(root, "")`, whose cleaned input is `root ++ "/"`. -/

theorem guard1_iff (r : List Char) :
    (r ++ ['/'] = [] ∨ (r ++ ['/']).head? = some '/') ↔ (r = [] ∨ r.head? = some '/') := by
  cases r with
  | nil => simp
  | cons a as => simp

theorem guardSD_iff (c : Char) (r : List Char) :
    (c = '.' ∧ (r ++ ['/'] = [] ∨ (r ++ ['/']).head? = some '/'))
      ↔ (c = '.' ∧ (r = [] ∨ r.head? = some '/')) :=
  and_congr Iff.rfl (guard1_iff r)

theorem guardDD_iff (c : Char) (r : List Char) :
    (c = '.' ∧ (r ++ ['/']).head? = some '.'
      ∧ ((r ++ ['/']).tail = [] ∨ (r ++ ['/']).tail.head? = some '/'))
    ↔ (c = '.' ∧ r.head? = some '.' ∧ (r.tail = [] ∨ r.tail.head? = some '/')) := by
  cases r with
  | nil =>
    constructor
    · rintro ⟨h1, h2, h3⟩
      exact absurd h2 (by decide)
    · rintro ⟨h1, h2, h3⟩
      exact absurd h2 (by simp)
  | cons a as =>
    simp only [List.cons_append, List.head?_cons, List.tail_cons]
    exact and_congr Iff.rfl (and_congr Iff.rfl (guard1_iff as))

theorem cleanLoop_append_slash (rooted : Bool) (input : List Char) (b : Bool)
    (out : List Char) (dd : Nat) :
    cleanLoop rooted (input ++ ['/']) b out dd = cleanLoop rooted input b out dd := by
  induction input, b, out, dd using cleanLoop.induct rooted with
  | case1 b out dd => cases b <;> rfl
  | case2 r out dd ih => exact ih
  | case3 c r out dd hc ih =>
    simp only [List.cons_append, cleanLoop, List.append_eq]
    rw [if_neg hc, if_neg hc]
    exact ih
  | case4 r out dd ih => exact ih
  | case5 c r out dd hc h ih =>
    simp only [List.cons_append, cleanLoop, List.append_eq]
    rw [if_neg hc, if_neg hc, if_pos ((guardSD_iff c r).mpr h), if_pos h]
    exact ih
  | case6 c r out dd hc hsd hdd hlt ih =>
    simp only [List.cons_append, cleanLoop, List.append_eq]
    rw [if_neg hc, if_neg hc, if_neg ((not_congr (guardSD_iff c r)).mpr hsd), if_neg hsd,
      if_pos ((guardDD_iff c r).mpr hdd), if_pos hdd, if_pos hlt, if_pos hlt]
    exact ih
  | case7 c r out dd hc hsd hdd hlt hroot ih =>
    simp only [List.cons_append, cleanLoop, List.append_eq]
    rw [if_neg hc, if_neg hc, if_neg ((not_congr (guardSD_iff c r)).mpr hsd), if_neg hsd,
      if_pos ((guardDD_iff c r).mpr hdd), if_pos hdd, if_neg hlt, if_neg hlt,
      if_pos hroot, if_pos hroot]
    exact ih
  | case8 c r out dd hc hsd hdd hlt hroot ih =>
    simp only [List.cons_append, cleanLoop, List.append_eq]
    rw [if_neg hc, if_neg hc, if_neg ((not_congr (guardSD_iff c r)).mpr hsd), if_neg hsd,
      if_pos ((guardDD_iff c r).mpr hdd), if_pos hdd, if_neg hlt, if_neg hlt,
      if_neg hroot, if_neg hroot]
    exact ih
  | case9 c r out dd hc hsd hdd ih =>
    simp only [List.cons_append, cleanLoop, List.append_eq]
    rw [if_neg hc, if_neg hc, if_neg ((not_congr (guardSD_iff c r)).mpr hsd), if_neg hsd,
      if_neg ((not_congr (guardDD_iff c r)).mpr hdd), if_neg hdd]
    exact ih

theorem goClean_append_slash (s : String) (h : s ≠ "") : goClean (s ++ "/") = goClean s := by
  obtain ⟨l⟩ := s
  have hl : l ≠ [] := str_ne_empty_iff.mp h
  have hdata : (String.mk l ++ "/").data = l ++ ['/'] := str_data_append (String.mk l) "/"
  cases l with
  | nil => exact absurd rfl hl
  | cons c rest =>
    show goClean (String.mk (c :: rest) ++ "/") = goClean (String.mk (c :: rest))
    unfold goClean
    rw [hdata]
    by_cases hc : c = '/'
    · simp only [List.cons_append, if_pos hc]
      rw [cleanLoop_append_slash]
    · simp only [List.cons_append, if_neg hc]
      rw [show c :: (rest ++ ['/']) = (c :: rest) ++ ['/'] from rfl, cleanLoop_append_slash]

/-- `path.Join(root, "")` for a nonempty root is `path.Clean(root)`. -/
theorem goJoin_empty_of_ne (root : String) (h : root ≠ "") :
    goJoin root "" = goClean root := by
  unfold goJoin
  rw [if_neg (fun hand => h hand.1), if_neg h, str_append_empty, goClean_append_slash root h]

/-! ### Helper lemmas: the sort used by `ReadDir` -/

theorem lexLe_total (a : List Char) : ∀ b : List Char, lexLe a b = true ∨ lexLe b a = true := by
  induction a with
  | nil => intro b; left; rfl
  | cons x xs ih =>
    intro b
    cases b with
    | nil => right; rfl
    | cons y ys =>
      by_cases h1 : x.toNat < y.toNat
      · left; simp [lexLe, h1]
      · by_cases h2 : y.toNat < x.toNat
        · right; simp [lexLe, h2]
        · rcases ih ys with h | h
          · left; simp [lexLe, h1, h2, h]
          · right; simp [lexLe, h1, h2, h]

theorem lexLe_trans {a b c : List Char} (h1 : lexLe a b = true) (h2 : lexLe b c = true) :
    lexLe a c = true := by
  induction a generalizing b c with
  | nil => rfl
  | cons x xs ih =>
    cases b with
    | nil => simp [lexLe] at h1
    | cons y ys =>
      cases c with
      | nil => simp [lexLe] at h2
      | cons z zs =>
        simp only [lexLe] at h1 h2 ⊢
        by_cases hxy : x.toNat < y.toNat
        · by_cases hyz : y.toNat < z.toNat
          · simp [show x.toNat < z.toNat by omega]
          · by_cases hzy : z.toNat < y.toNat
            · simp [hyz, hzy] at h2
            · simp [show x.toNat < z.toNat by omega]
        · by_cases hyx : y.toNat < x.toNat
          · simp [hxy, hyx] at h1
          · by_cases hyz : y.toNat < z.toNat
            · simp [show x.toNat < z.toNat by omega]
            · by_cases hzy : z.toNat < y.toNat
              · simp [hyz, hzy] at h2
              · simp only [hxy, hyx, hyz, hzy, if_neg, if_false] at h1 h2
                simp only [show ¬ x.toNat < z.toNat by omega,
                  show ¬ z.toNat < x.toNat by omega, if_neg, if_false]
                exact ih h1 h2

theorem strLe_total (a b : String) : strLe a b = true ∨ strLe b a = true :=
  lexLe_total a.data b.data

theorem strLe_trans {a b c : String} (h1 : strLe a b = true) (h2 : strLe b c = true) :
    strLe a c = true :=
  lexLe_trans h1 h2

theorem insertStr_perm (x : String) (l : List String) :
    List.Perm (insertStr x l) (x :: l) := by
  induction l with
  | nil => exact List.Perm.refl [x]
  | cons y ys ih =>
    by_cases h : strLe x y
    · rw [show insertStr x (y :: ys) = x :: y :: ys from by simp [insertStr, h]]
    · rw [show insertStr x (y :: ys) = y :: insertStr x ys from by simp [insertStr, h]]
      exact List.Perm.trans (List.Perm.cons y ih) (List.Perm.swap x y ys)

theorem sortStrings_perm (l : List String) : List.Perm (sortStrings l) l := by
  induction l with
  | nil => exact List.Perm.refl []
  | cons x xs ih =>
    exact List.Perm.trans (insertStr_perm x (sortStrings xs)) (List.Perm.cons x ih)

theorem sorted_insertStr {x : String} {l : List String}
    (h : List.Sorted (fun a b => strLe a b = true) l) :
    List.Sorted (fun a b => strLe a b = true) (insertStr x l) := by
  induction l with
  | nil => simp [insertStr]
  | cons y ys ih =>
    rw [List.sorted_cons] at h
    obtain ⟨hy, hys⟩ := h
    by_cases hxy : strLe x y
    · rw [show insertStr x (y :: ys) = x :: y :: ys from by simp [insertStr, hxy]]
      rw [List.sorted_cons]
      refine ⟨?_, ?_⟩
      · intro z hz
        rcases List.mem_cons.mp hz with rfl | hz
        · exact hxy
        · exact strLe_trans hxy (hy z hz)
      · rw [List.sorted_cons]
        exact ⟨hy, hys⟩
    · rw [show insertStr x (y :: ys) = y :: insertStr x ys from by simp [insertStr, hxy]]
      rw [List.sorted_cons]
      refine ⟨?_, ih hys⟩
      intro z hz
      have hz' : z ∈ x :: ys := (insertStr_perm x ys).mem_iff.mp hz
      rcases List.mem_cons.mp hz' with hzx | hz'
      · rw [hzx]
        rcases strLe_total x y with hx | hx
        · exact absurd hx hxy
        · exact hx
      · exact hy z hz'

theorem sorted_sortStrings (l : List String) :
    List.Sorted (fun a b => strLe a b = true) (sortStrings l) := by
  induction l with
  | nil => simp [sortStrings]
  | cons x xs ih => exact sorted_insertStr ih

/-! ### Helper lemmas: the `ReadDir` loop -/

theorem readDirLoop_eq_none_iff (pfx : String) (n : Nat) :
    ∀ (ks acc : List String), readDirLoop pfx n ks acc = none ↔ pfx ∈ ks := by
  intro ks
  induction ks with
  | nil => intro acc; simp [readDirLoop]
  | cons k rest ih =>
    intro acc
    by_cases hk : k = pfx
    · subst hk; simp [readDirLoop]
    · by_cases hs : hasSlash (goDrop (n + 1) k)
      · simp [readDirLoop, hk, hs, ih, Ne.symm hk]
      · simp [readDirLoop, hk, hs, ih, Ne.symm hk]

theorem readDirLoop_eq_some (pfx : String) (n : Nat) :
    ∀ (ks acc names : List String), readDirLoop pfx n ks acc = some names →
      names = acc ++ (ks.filter (fun k => ! hasSlash (goDrop (n + 1) k))).map (goDrop (n + 1)) := by
  intro ks
  induction ks with
  | nil =>
    intro acc names h
    simp only [readDirLoop, Option.some.injEq] at h
    simp [← h]
  | cons k rest ih =>
    intro acc names h
    by_cases hk : k = pfx
    · simp [readDirLoop, hk] at h
    · by_cases hs : hasSlash (goDrop (n + 1) k)
      · simp only [readDirLoop, hk, hs, if_false, if_true, ite_true, ite_false] at h
        rw [ih acc names h]
        simp [hs]
      · simp only [readDirLoop, hk, hs, if_false, if_true, ite_true, ite_false] at h
        rw [ih (acc ++ [goDrop (n + 1) k]) names h]
        simp [hs]

theorem map_filter_comm {α β : Type} (f : α → β) (p : β → Bool) (l : List α) :
    (l.filter (fun k => p (f k))).map f = (l.map f).filter p := by
  induction l with
  | nil => rfl
  | cons x xs ih =>
    by_cases h : p (f x)
    · simp [h, ih]
    · simp [h, ih]

/-- Forward characterization of a successful `ReadDir`: the queried prefix is
not among the matching keys, at least one key matched, and the entries are the
sorted one-level relative names of the matching keys. -/
theorem ReadDir_ok_spec {store : List String} {root dir : String} {entries : List DirEntry}
    (h : ReadDir store root dir = Except.ok entries) :
    goJoin root dir ∉ store.filter (fun k => goHasPfx (goJoin root dir) k)
    ∧ store.filter (fun k => goHasPfx (goJoin root dir) k) ≠ []
    ∧ entries = (sortStrings (((store.filter (fun k => goHasPfx (goJoin root dir) k)).filter
        (fun k => ! hasSlash (goDrop ((goJoin root dir).length + 1) k))).map
        (goDrop ((goJoin root dir).length + 1)))).map DirEntry.mk := by
  unfold ReadDir at h
  cases hl : readDirLoop (goJoin root dir) (goJoin root dir).length
      (store.filter (fun k => goHasPfx (goJoin root dir) k)) [] with
  | none => rw [hl] at h; cases h
  | some names =>
    rw [hl] at h
    dsimp only at h
    by_cases he : (store.filter (fun k => goHasPfx (goJoin root dir) k)).isEmpty
    · rw [if_pos he] at h; cases h
    · rw [if_neg he] at h
      injection h with h
      refine ⟨?_, ?_, ?_⟩
      · intro hmem
        have hn := (readDirLoop_eq_none_iff (goJoin root dir) (goJoin root dir).length
          (store.filter (fun k => goHasPfx (goJoin root dir) k)) []).mpr hmem
        rw [hl] at hn
        cases hn
      · intro hnil
        exact he (by rw [hnil]; rfl)
      · have hnames := readDirLoop_eq_some (goJoin root dir) (goJoin root dir).length
          (store.filter (fun k => goHasPfx (goJoin root dir) k)) [] names hl
        rw [← h, hnames]
        simp

/-! ### Claims -/

theorem append_goDrop_of_under {pfx k : String} (h : goHasPfx (pfx ++ "/") k = true) :
    (pfx ++ "/") ++ goDrop (pfx.length + 1) k = k := by
  obtain ⟨t, ht⟩ := List.isPrefixOf_iff_prefix.mp h
  apply str_eq_of_data_eq
  rw [str_data_append]
  show (pfx ++ "/").data ++ k.data.drop (pfx.length + 1) = k.data
  have hlen : (pfx ++ "/").data.length = pfx.length + 1 := by
    rw [str_data_append, List.length_append]
    rfl
  rw [← ht, ← hlen, List.drop_left]

/-- C1: with exactly the objects `dir/a.txt`, `dir/b.txt`, `dir/sub/c.txt` in the
backend, `readDir("dir")` succeeds with exactly the two entries `a.txt`, `b.txt`
in lexicographic order, and neither `sub` nor `sub/c.txt` appears as an entry. -/
theorem c1_readDir_listing :
    ReadDir ["dir/a.txt", "dir/b.txt", "dir/sub/c.txt"] "" "dir"
      = Except.ok [DirEntry.mk "a.txt", DirEntry.mk "b.txt"]
    ∧ DirEntry.mk "sub" ∉ [DirEntry.mk "a.txt", DirEntry.mk "b.txt"]
    ∧ DirEntry.mk "sub/c.txt" ∉ [DirEntry.mk "a.txt", DirEntry.mk "b.txt"] :=
  ⟨rfl, by decide, by decide⟩

/-- C2: `readDir` fails with `NotFound` exactly when no backend key has the
resolved prefix, or some key with that prefix equals it exactly (even when
other keys nest under the prefix). -/
theorem c2_readDir_notFound_iff (store : List String) (root dir : String) :
    ReadDir store root dir = Except.error FsErr.notFound
      ↔ (store.filter (fun k => goHasPfx (goJoin root dir) k) = []
         ∨ goJoin root dir ∈ store.filter (fun k => goHasPfx (goJoin root dir) k)) := by
  unfold ReadDir
  cases hl : readDirLoop (goJoin root dir) (goJoin root dir).length
      (store.filter (fun k => goHasPfx (goJoin root dir) k)) [] with
  | none =>
    dsimp only
    constructor
    · intro _
      exact Or.inr ((readDirLoop_eq_none_iff (goJoin root dir) (goJoin root dir).length
        (store.filter (fun k => goHasPfx (goJoin root dir) k)) []).mp hl)
    · intro _
      rfl
  | some names =>
    have hnot : goJoin root dir ∉ store.filter (fun k => goHasPfx (goJoin root dir) k) := by
      intro hmem
      have hn := (readDirLoop_eq_none_iff (goJoin root dir) (goJoin root dir).length
        (store.filter (fun k => goHasPfx (goJoin root dir) k)) []).mpr hmem
      rw [hl] at hn
      cases hn
    dsimp only
    by_cases he : (store.filter (fun k => goHasPfx (goJoin root dir) k)).isEmpty
    · rw [if_pos he]
      have hfe : store.filter (fun k => goHasPfx (goJoin root dir) k) = [] :=
        List.isEmpty_iff.mp he
      simp [hfe]
    · rw [if_neg he]
      constructor
      · intro hcontra
        exact Except.noConfusion hcontra
      · rintro (hnil | hmem)
        · exact absurd (by rw [hnil]; rfl) he
        · exact absurd hmem hnot

/-- Witness for C2: a key equal to the queried prefix forces `NotFound` even
though another key nests under the prefix. -/
theorem c2_readDir_notFound_iff_witness :
    ReadDir ["dir", "dir/x"] "" "dir" = Except.error FsErr.notFound :=
  (c2_readDir_notFound_iff ["dir", "dir/x"] "" "dir").mpr (Or.inr (by decide))

/-- C3 counterexample: with the single backend key `dirx.txt`, the query for
prefix `dir` returns it (plain byte-prefix match) although it does not lie
under `dir/`, so there is no following path separator to strip; the code still
synthesizes the entry `.txt` (it removes `len(P)+1` bytes), which differs from
the specification's "strip the prefix and the following path separator"
result `x.txt`. -/
theorem c3_strip_counterexample :
    ReadDir ["dirx.txt"] "" "dir" = Except.ok [DirEntry.mk ".txt"]
    ∧ goHasPfx "dir" "dirx.txt" = true
    ∧ goHasPfx ("dir" ++ "/") "dirx.txt" = false
    ∧ specRelName "dir" "dirx.txt" = "x.txt"
    ∧ DirEntry.mk ".txt" ≠ DirEntry.mk "x.txt" :=
  ⟨rfl, rfl, rfl, rfl, by decide⟩

/-- C3 (amended): for every key returned by the prefix query other than an
exact match, the code removes the first `len(P)+1` bytes of the key (the
prefix plus the immediately following byte, which is the path separator
whenever the key lies under `P ++ "/"`); a relative name containing a further
separator is discarded, otherwise it becomes an entry name.  Stated as: the
multiset of entry names is exactly the separator-free results of that
truncation over the non-exact-match keys. -/
theorem c3_strip_amended (store : List String) (root dir : String) (entries : List DirEntry)
    (h : ReadDir store root dir = Except.ok entries) :
    List.Perm (entries.map DirEntry.name)
      ((((store.filter (fun k => goHasPfx (goJoin root dir) k)).filter
          (fun k => k ≠ goJoin root dir)).map
          (fun k => goDrop ((goJoin root dir).length + 1) k)).filter
        (fun nm => ! hasSlash nm)) := by
  obtain ⟨hnot, -, hent⟩ := ReadDir_ok_spec h
  rw [hent, List.map_map, show DirEntry.name ∘ DirEntry.mk = id from rfl, List.map_id]
  have hfe : (store.filter (fun k => goHasPfx (goJoin root dir) k)).filter
      (fun k => k ≠ goJoin root dir) = store.filter (fun k => goHasPfx (goJoin root dir) k) := by
    apply List.filter_eq_self.mpr
    intro k hk
    exact decide_eq_true (fun he => hnot (he ▸ hk))
  rw [hfe, ← map_filter_comm (fun k => goDrop ((goJoin root dir).length + 1) k)
    (fun nm => ! hasSlash nm)]
  exact sortStrings_perm _

/-- Witness for C3 (amended) at a concrete backend state. -/
theorem c3_strip_amended_witness :
    List.Perm ([DirEntry.mk "b"].map DirEntry.name)
      ((((["p/b", "p/c/d"].filter (fun k => goHasPfx (goJoin "" "p") k)).filter
          (fun k => k ≠ goJoin "" "p")).map
          (fun k => goDrop ((goJoin "" "p").length + 1) k)).filter
        (fun nm => ! hasSlash nm)) :=
  c3_strip_amended ["p/b", "p/c/d"] "" "p" [DirEntry.mk "b"] rfl

/-- C4 counterexample: the distinct backend keys `dir/x` and `dirAx` both
match the byte prefix `dir` and both truncate to the relative name `x`, so a
successful listing can contain duplicate entry names. -/
theorem c4_dup_counterexample :
    ReadDir ["dir/x", "dirAx"] "" "dir" = Except.ok [DirEntry.mk "x", DirEntry.mk "x"]
    ∧ List.Nodup ["dir/x", "dirAx"]
    ∧ ¬ ([DirEntry.mk "x", DirEntry.mk "x"].map DirEntry.name).Nodup :=
  ⟨rfl, by decide, by decide⟩

/-- C4 (amended): in every successful listing the entry names are sorted in
ascending byte-lexicographic order; they are moreover pairwise distinct
provided the backend returns no duplicate keys and every matching key other
than an exact match lies under the resolved prefix followed by a separator. -/
theorem c4_sorted_amended (store : List String) (root dir : String) (entries : List DirEntry)
    (h : ReadDir store root dir = Except.ok entries) :
    List.Sorted (fun a b => strLe a b = true) (entries.map DirEntry.name)
    ∧ (store.Nodup →
        (∀ k ∈ store, goHasPfx (goJoin root dir) k = true → k ≠ goJoin root dir →
          goHasPfx (goJoin root dir ++ "/") k = true) →
        (entries.map DirEntry.name).Nodup) := by
  obtain ⟨hnot, -, hent⟩ := ReadDir_ok_spec h
  have hmap : entries.map DirEntry.name
      = sortStrings (((store.filter (fun k => goHasPfx (goJoin root dir) k)).filter
          (fun k => ! hasSlash (goDrop ((goJoin root dir).length + 1) k))).map
          (goDrop ((goJoin root dir).length + 1))) := by
    rw [hent, List.map_map, show DirEntry.name ∘ DirEntry.mk = id from rfl, List.map_id]
  constructor
  · rw [hmap]
    exact sorted_sortStrings _
  · intro hnd hunder
    rw [hmap]
    apply (List.Perm.nodup_iff (sortStrings_perm _)).mpr
    apply List.Nodup.map_on
    · intro x hx y hy hf
      have hxs : x ∈ store.filter (fun k => goHasPfx (goJoin root dir) k) :=
        List.mem_of_mem_filter hx
      have hys : y ∈ store.filter (fun k => goHasPfx (goJoin root dir) k) :=
        List.mem_of_mem_filter hy
      have hux := hunder x (List.mem_of_mem_filter hxs) (List.of_mem_filter hxs)
        (fun he => hnot (he ▸ hxs))
      have huy := hunder y (List.mem_of_mem_filter hys) (List.of_mem_filter hys)
        (fun he => hnot (he ▸ hys))
      calc x = (goJoin root dir ++ "/") ++ goDrop ((goJoin root dir).length + 1) x :=
            (append_goDrop_of_under hux).symm
        _ = (goJoin root dir ++ "/") ++ goDrop ((goJoin root dir).length + 1) y := by rw [hf]
        _ = y := append_goDrop_of_under huy
    · exact (hnd.filter _).filter _

/-- Witness for C4 (amended) at a concrete backend state. -/
theorem c4_sorted_amended_witness :
    List.Sorted (fun a b => strLe a b = true)
      ([DirEntry.mk "a", DirEntry.mk "b"].map DirEntry.name)
    ∧ ([DirEntry.mk "a", DirEntry.mk "b"].map DirEntry.name).Nodup :=
  ⟨(c4_sorted_amended ["q/b", "q/a"] "" "q" [DirEntry.mk "a", DirEntry.mk "b"] rfl).1,
   (c4_sorted_amended ["q/b", "q/a"] "" "q" [DirEntry.mk "a", DirEntry.mk "b"] rfl).2
     (by decide) (by decide)⟩

/-- C5: every entry of a successful `readDir` reports `IsDir() == false`
(`dirEntry.IsDir` is constantly `false` in the source), regardless of whether
the entry name is itself a prefix of deeper keys. -/
theorem c5_entries_not_dir (store : List String) (root dir : String)
    (entries : List DirEntry) (_h : ReadDir store root dir = Except.ok entries) :
    ∀ e ∈ entries, e.isDir = false :=
  fun _ _ => rfl

/-- Witness for C5 at a concrete backend state. -/
theorem c5_entries_not_dir_witness :
    ReadDir ["d/a", "d/b/c"] "" "d" = Except.ok [DirEntry.mk "a"]
    ∧ (∀ e ∈ [DirEntry.mk "a"], e.isDir = false) :=
  ⟨rfl, c5_entries_not_dir ["d/a", "d/b/c"] "" "d" [DirEntry.mk "a"] rfl⟩

/-- C9 counterexample: resolving the empty logical path does not in general
yield the root prefix string itself: `path.Join("a/", "")` is the cleaned
`"a"`, not `"a/"`. -/
theorem c9_resolve_counterexample :
    goJoin "a/" "" = "a" ∧ goJoin "a/" "" ≠ "a/" :=
  ⟨rfl, by decide⟩

/-- C9 (amended): resolution is the pure function `path.Join`; joining the
empty pair gives `""`, and for a nonempty root the empty logical path
resolves to `path.Clean(root)` — hence to the root prefix itself exactly when
the root is already in canonical (cleaned) form. -/
theorem c9_resolve_amended :
    goJoin "" "" = ""
    ∧ (∀ root : String, root ≠ "" → goJoin root "" = goClean root)
    ∧ (∀ root : String, goClean root = root → goJoin root "" = root) := by
  refine ⟨rfl, fun root h => goJoin_empty_of_ne root h, ?_⟩
  intro root hc
  by_cases hr : root = ""
  · rw [hr] at hc
    exact absurd hc (by decide)
  · rw [goJoin_empty_of_ne root hr, hc]

/-- Witness for C9 (amended) at a concrete root. -/
theorem c9_resolve_amended_witness :
    goJoin "a/b" "" = "a/b" :=
  c9_resolve_amended.2.2 "a/b" (by decide)

/-- C6: `Open` fails with the canonical `NotFound` exactly when the backend
reports `ErrObjectNotExist` at the resolved key; any other backend failure is
surfaced to the caller unchanged. -/
theorem c6_open_error_mapping {ε : Type} (nr : String → ReaderOutcome ε) (root p : String) :
    ((Open nr root p).2 = some FsErr.notFound ↔ nr (goJoin root p) = ReaderOutcome.notExist)
    ∧ (∀ e : ε, nr (goJoin root p) = ReaderOutcome.err e →
        (Open nr root p).2 = some (FsErr.backend e)) := by
  constructor
  · cases hnr : nr (goJoin root p) with
    | ok c => simp [Open, hnr]
    | notExist => simp [Open, hnr]
    | err e => simp [Open, hnr]
  · intro e he
    simp [Open, he]

/-- Witness for C6 at concrete backends. -/
theorem c6_open_error_mapping_witness :
    (Open (ε := Nat) (fun _ => ReaderOutcome.notExist) "r" "p").2 = some FsErr.notFound
    ∧ (Open (ε := Nat) (fun _ => ReaderOutcome.err 5) "r" "p").2 = some (FsErr.backend 5) :=
  ⟨(c6_open_error_mapping (fun _ => ReaderOutcome.notExist) "r" "p").1.mpr rfl,
   (c6_open_error_mapping (fun _ => ReaderOutcome.err 5) "r" "p").2 5 rfl⟩

/-- C10: when the backend read open fails with an error other than
object-not-exist, `Open` returns that error together with a non-nil file
handle wrapping no reader; the returned handle is nil exactly in the
not-exist case, which pairs it with `NotFound`. -/
theorem c10_open_handle (ε : Type) (nr : String → ReaderOutcome ε) (root p : String) :
    (∀ e : ε, nr (goJoin root p) = ReaderOutcome.err e →
      Open nr root p = (some { r := none }, some (FsErr.backend e)))
    ∧ ((Open nr root p).1 = none ↔ nr (goJoin root p) = ReaderOutcome.notExist)
    ∧ (nr (goJoin root p) = ReaderOutcome.notExist →
        Open nr root p = (none, some FsErr.notFound)) := by
  refine ⟨?_, ?_, ?_⟩
  · intro e he
    simp [Open, he]
  · cases hnr : nr (goJoin root p) with
    | ok c => simp [Open, hnr]
    | notExist => simp [Open, hnr]
    | err e => simp [Open, hnr]
  · intro he
    simp [Open, he]

/-- Witness for C10 at concrete backends. -/
theorem c10_open_handle_witness :
    Open (ε := Nat) (fun _ => ReaderOutcome.err 3) "r" "p"
      = (some { r := none }, some (FsErr.backend 3))
    ∧ Open (ε := Nat) (fun _ => ReaderOutcome.notExist) "r" "p"
      = (none, some FsErr.notFound) :=
  ⟨(c10_open_handle Nat (fun _ => ReaderOutcome.err 3) "r" "p").1 3 rfl,
   (c10_open_handle Nat (fun _ => ReaderOutcome.notExist) "r" "p").2.2 rfl⟩

/-- C7: writing `c1` at `p` via `Create` and closing, then obtaining a stream
via `Append`, writing `c2` and closing, leaves the object at `p` equal to
`c1 ++ c2`; a subsequent `Open` reads exactly `c1 ++ c2`. -/
theorem c7_create_append_roundtrip (store : Store) (root p c1 c2 : String) :
    Append (ε := Empty) (storeReader (commit store ((Create root p).write c1))) root p
      = Except.ok (Writer.mk (goJoin root p) c1)
    ∧ commit (commit store ((Create root p).write c1))
        ((Writer.mk (goJoin root p) c1).write c2) (goJoin root p) = some (c1 ++ c2)
    ∧ Open (ε := Empty) (storeReader (commit (commit store ((Create root p).write c1))
        ((Writer.mk (goJoin root p) c1).write c2))) root p
      = (some { r := some (c1 ++ c2) }, none) := by
  have h1 : storeReader (ε := Empty) (commit store ((Create root p).write c1)) (goJoin root p)
      = ReaderOutcome.ok c1 := by
    unfold storeReader commit
    rw [show ((Create root p).write c1).key = goJoin root p from rfl, if_pos rfl]
    rfl
  have h2 : storeReader (ε := Empty) (commit (commit store ((Create root p).write c1))
      ((Writer.mk (goJoin root p) c1).write c2)) (goJoin root p)
      = ReaderOutcome.ok (c1 ++ c2) := by
    unfold storeReader commit
    rw [show ((Writer.mk (goJoin root p) c1).write c2).key = goJoin root p from rfl, if_pos rfl]
    rfl
  refine ⟨?_, ?_, ?_⟩
  · unfold Append Open
    rw [h1]
    rfl
  · unfold commit
    rw [show ((Writer.mk (goJoin root p) c1).write c2).key = goJoin root p from rfl, if_pos rfl]
    rfl
  · unfold Open
    rw [h2]

/-- Witness for C7 at a concrete backend state. -/
theorem c7_create_append_roundtrip_witness :
    Append (ε := Empty) (storeReader (commit (fun _ => none) ((Create "" "f").write "ab"))) "" "f"
      = Except.ok (Writer.mk (goJoin "" "f") "ab") :=
  (c7_create_append_roundtrip (fun _ => none) "" "f" "ab" "cd").1

/-- C8: at a path with no existing object, `Append` swallows the internal
`NotFound`, returns exactly the writer `Create` would return (so the stored
result equals what is subsequently written), while any open failure other
than `NotFound` is propagated to the caller. -/
theorem c8_append_missing (ε : Type) (root p : String) :
    (∀ store : Store, store (goJoin root p) = none →
      Append (ε := ε) (storeReader store) root p = Except.ok (Create root p)
      ∧ ∀ d : String, commit store ((Create root p).write d) (goJoin root p) = some d)
    ∧ (∀ (nr : String → ReaderOutcome ε) (e : ε),
        nr (goJoin root p) = ReaderOutcome.err e →
        Append nr root p = Except.error (FsErr.backend e)) := by
  constructor
  · intro store hnone
    constructor
    · unfold Append Open storeReader
      rw [hnone]
      rfl
    · intro d
      unfold commit
      rw [show ((Create root p).write d).key = goJoin root p from rfl, if_pos rfl]
      rfl
  · intro nr e he
    unfold Append Open
    rw [he]

/-- Witness for C8 at concrete backends. -/
theorem c8_append_missing_witness :
    Append (ε := Nat) (storeReader (fun _ => none)) "r" "p" = Except.ok (Create "r" "p")
    ∧ commit (fun _ => none) ((Create "r" "p").write "hi") (goJoin "r" "p") = some "hi"
    ∧ Append (ε := Nat) (fun _ => ReaderOutcome.err 9) "r" "p"
        = Except.error (FsErr.backend 9) :=
  ⟨((c8_append_missing Nat "r" "p").1 (fun _ => none) rfl).1,
   ((c8_append_missing Nat "r" "p").1 (fun _ => none) rfl).2 "hi",
   (c8_append_missing Nat "r" "p").2 (fun _ => ReaderOutcome.err 9) 9 rfl⟩

end SimplefsGcs
